import Mathlib

/-!
Verification of the pandora-jar secrets loader (`src/secrets-loader.ts`,
`src/cli.ts`) against its natural-language specification.

Strings are modelled as lists of characters (`Str`); JavaScript string
operations used by the source (trim, toLowerCase, split, indexOf, includes,
startsWith) are defined explicitly below.  JavaScript objects holding
key/value pairs (`Secrets`, `process.env`) are modelled as insertion-ordered
association lists with last-write-wins assignment, matching object-key
insertion semantics.
-/

namespace PandoraJar

/-- Character-list model of JavaScript strings. -/
abbrev Str := List Char

/-- Convenience conversion from Lean string literals. -/
def str (s : String) : Str := s.data

/-- Whitespace characters recognised by JavaScript `String.prototype.trim`:
ASCII whitespace (TAB, LF, VT, FF, CR, SPACE), NBSP, the Ogham space mark,
the Zs block U+2000-U+200A, LINE/PARAGRAPH SEPARATOR, NARROW NO-BREAK
SPACE, MEDIUM MATHEMATICAL SPACE, IDEOGRAPHIC SPACE, and the BOM. -/
def isJsWs (c : Char) : Bool :=
  c = ' ' || c = '\t' || c = '\n' || c = '\x0d' || c = '\x0b' || c = '\x0c' ||
  c = '\u00A0' || c = '\u1680' ||
  (0x2000 ≤ c.toNat && c.toNat ≤ 0x200A) ||
  c = '\u2028' || c = '\u2029' || c = '\u202F' || c = '\u205F' ||
  c = '\u3000' || c = '\uFEFF'

/-- Left part of `trim`. -/
def trimLeftWs (s : Str) : Str := s.dropWhile isJsWs

/-- Right part of `trim`. -/
def trimRightWs (s : Str) : Str := (s.reverse.dropWhile isJsWs).reverse

/-- JavaScript `s.trim()`. -/
def jsTrim (s : Str) : Str := trimRightWs (trimLeftWs s)

/-- JavaScript `s.toLowerCase()` (ASCII behaviour). -/
def jsToLower (s : Str) : Str := s.map Char.toLower

/-- JavaScript `s.split('\n')`. -/
def splitNL : Str → List Str
  | [] => [[]]
  | c :: cs =>
    if c = '\n' then [] :: splitNL cs
    else
      match splitNL cs with
      | [] => [[c]]
      | l :: ls => (c :: l) :: ls

/-- JavaScript `lines.join('\n')`. -/
def joinNL : List Str → Str
  | [] => []
  | [l] => l
  | l :: ls => l ++ '\n' :: joinNL ls

/-- JavaScript `s.startsWith(p)` (test used below only through
`containsB`; written as a plain Boolean recursion). -/
def startsWithB : Str → Str → Bool
  | _, [] => true
  | [], _ :: _ => false
  | c :: cs, d :: ds => c = d && startsWithB cs ds

/-- JavaScript `hay.includes(needle)`. -/
def containsB (hay needle : Str) : Bool :=
  match hay with
  | [] => needle.isEmpty
  | _ :: cs => startsWithB hay needle || containsB cs needle

/-- JavaScript `line.startsWith('#')`. -/
def startsHash : Str → Bool
  | [] => false
  | c :: _ => c = '#'

/-- Index of the first occurrence of `c` in `s`; returns `s.length` when
absent (JavaScript `indexOf` returns `-1`; the source only compares the
index with `> 0`, and we additionally compare with the length to encode
absence). -/
def idxOf (c : Char) : Str → Nat
  | [] => 0
  | d :: ds => if d = c then 0 else idxOf c ds + 1

/-- Insertion-ordered map of string keys to string values: the model of
both the `Secrets` object and `process.env`. -/
abbrev SecretMap := List (Str × Str)

/-- Whether a key is present (JavaScript `key in obj`). -/
def hasKey : SecretMap → Str → Bool
  | [], _ => false
  | (k2, _) :: rest, k => k2 = k || hasKey rest k

/-- Update the value of an existing key in place (JavaScript object
assignment keeps the key's original insertion position). -/
def setVal : SecretMap → Str → Str → SecretMap
  | [], _, _ => []
  | (k2, v2) :: rest, k, v =>
    if k2 = k then (k2, v) :: rest else (k2, v2) :: setVal rest k v

/-- JavaScript `obj[k] = v`: update in place if present, else append. -/
def putKV (m : SecretMap) (k v : Str) : SecretMap :=
  if hasKey m k then setVal m k v else m ++ [(k, v)]

/-- JavaScript `obj[k]`: `none` models `undefined`. -/
def envGet : SecretMap → Str → Option Str
  | [], _ => none
  | (k2, v2) :: rest, k => if k2 = k then some v2 else envGet rest k

/-- JavaScript truthiness of `obj[k]` for string-valued objects:
`undefined` and the empty string are falsy. -/
def truthy : Option Str → Bool
  | none => false
  | some s => !s.isEmpty

/-- One step of the `key=value` parsing loop shared by `loadFromCLI`
(lines 230-237) and `loadBackup` (lines 472-479): locate the first `=`;
keep the line only when the `=` exists at a positive index; everything
before it is the key, everything after it the value. -/
def parseLineInto (m : SecretMap) (line : Str) : SecretMap :=
  let i := idxOf '=' line
  if 0 < i ∧ i < line.length then putKV m (line.take i) (line.drop (i + 1))
  else m

/-- Fold of `parseLineInto` starting from the fresh object `{}`. -/
def parsePairs (lines : List Str) : SecretMap :=
  lines.foldl parseLineInto []

/-- Line filter of `loadBackup` (line 469): keep lines whose trim is
non-empty and that do not start with `#`. -/
def keepLineBackup (l : Str) : Bool := !(jsTrim l).isEmpty && !startsHash l

/-- Line filter of `loadFromCLI` (line 227): keep lines whose trim is
non-empty (no comment filtering there). -/
def keepLineCLI (l : Str) : Bool := !(jsTrim l).isEmpty

/-- `loadBackup` body (lines 468-479): trim the file content, split into
lines, filter, parse. -/
def loadBackupParse (content : Str) : SecretMap :=
  parsePairs ((splitNL (jsTrim content)).filter keepLineBackup)

/-- `loadFromCLI` stdout parsing (lines 227-237). -/
def parseCLIOut (stdout : Str) : SecretMap :=
  parsePairs ((splitNL (jsTrim stdout)).filter keepLineCLI)

/-- `saveBackup` serialisation (lines 452-454):
`key=value` per entry, joined by newlines. -/
def renderEnv (m : SecretMap) : Str :=
  joinNL (m.map (fun p => p.1 ++ '=' :: p.2))

/-- `saveBackup` (lines 441-462) modelled over the backup file content
(`none` = file absent) and an explicit write success flag for the one
`fs.writeFile` call: an empty map returns before any file operation. -/
def saveBackup (m : SecretMap) (file : Option Str) (writeOk : Bool) :
    Except Str (Option Str) :=
  if m.length = 0 then Except.ok file
  else if writeOk then Except.ok (some (renderEnv m))
  else Except.error (str "Failed to save backup")

/-- `saveBackup` restricted to the successful-write case, used by the
orchestration model. -/
def saveBackupFile (m : SecretMap) (file : Option Str) : Option Str :=
  if m.length = 0 then file else some (renderEnv m)

/-- `populateEnv` (lines 150-157): publish each secret only when
`process.env[key]` is falsy (absent or empty string). -/
def populateEnv (secrets : SecretMap) (env : SecretMap) : SecretMap :=
  secrets.foldl (fun e p => if truthy (envGet e p.1) then e else putKV e p.1 p.2) env

/-! ## Subprocess execution (`execWithStreaming`, lines 15-82) -/

/-- Distinguishable settlement errors of `execWithStreaming`:
the interactive-login detection (lines 50-53, 60-63), a non-zero exit code
(line 69), and a process `error` event (line 76). -/
inductive ExecErr where
  | interactiveLogin
  | exitCode (c : Int)
  | procErr (msg : Str)
  deriving DecidableEq

/-- Settled value of a successful `execWithStreaming` promise. -/
structure ExecResult where
  stdout : Str
  stderr : Str
  deriving DecidableEq

/-- Observable events of one child process: stdout/stderr `data` chunks,
the `close` event with its exit code (`none` models a `null` code), and
the `error` event. -/
inductive StreamEvent where
  | out (data : Str)
  | errOut (data : Str)
  | close (code : Option Int)
  | errorEvt (msg : Str)
  deriving DecidableEq

/-- The literal interactive-login phrase scanned for in every chunk
(lines 50 and 60). -/
def loginPhrase : Str :=
  str "No valid login session found, triggering login flow"

/-- Event loop of `execWithStreaming`: chunks accumulate into stdout and
stderr; the first settlement wins (the `settled` flag) and the child is
killed at that point, so later events are discarded.  A chunk containing
`loginPhrase` settles immediately with `interactiveLogin`; a `close` with
non-zero non-null code settles with `exitCode`; otherwise `close` resolves
with the accumulated output.  `none` models a promise that never
settles (no `close` or `error` event arrived). -/
def execRunAux (stdout stderr : Str) :
    List StreamEvent → Option (Except ExecErr ExecResult)
  | [] => none
  | StreamEvent.out d :: rest =>
    if containsB d loginPhrase then some (Except.error ExecErr.interactiveLogin)
    else execRunAux (stdout ++ d) stderr rest
  | StreamEvent.errOut d :: rest =>
    if containsB d loginPhrase then some (Except.error ExecErr.interactiveLogin)
    else execRunAux stdout (stderr ++ d) rest
  | StreamEvent.close code :: _ =>
    match code with
    | some c =>
      if c ≠ 0 then some (Except.error (ExecErr.exitCode c))
      else some (Except.ok ⟨stdout, stderr⟩)
    | none => some (Except.ok ⟨stdout, stderr⟩)
  | StreamEvent.errorEvt m :: _ => some (Except.error (ExecErr.procErr m))

/-- `execWithStreaming` as a function of the child process's event trace. -/
def execRun (events : List StreamEvent) : Option (Except ExecErr ExecResult) :=
  execRunAux [] [] events

/-! ## `loadFromCLI` (lines 189-274) -/

/-- `loadFromCLI` as a function of the settled outcomes of its three
possible invocations (with `--projectId`, without it, and the diagnostic
run without `--silent`) and of the secrets held *before* the call
(`this.secrets`).  The first successful invocation's stdout is parsed and
adopted; when the first fails, the second is tried; when the second fails,
the third is tried purely for diagnostics and on its failure the *second*
attempt's error (`retryError`) is thrown; the outer catch (lines 258-273)
then returns the pre-existing secrets when there are any and rethrows
otherwise. -/
def loadFromCLI (a1 a2 a3 : Except ExecErr ExecResult)
    (prior : SecretMap) : Except ExecErr SecretMap :=
  match a1 with
  | Except.ok r => Except.ok (parseCLIOut r.stdout)
  | Except.error _ =>
    match a2 with
    | Except.ok r => Except.ok (parseCLIOut r.stdout)
    | Except.error e2 =>
      match a3 with
      | Except.ok r => Except.ok (parseCLIOut r.stdout)
      | Except.error _ =>
        if prior.length ≠ 0 then Except.ok prior else Except.error e2

/-! ## Orchestration (`initialize`, lines 112-148) -/

/-- Loader access mode as named by the specification; derived from which
tier succeeded (the source records only `usingSDK` plus the control path
taken). -/
inductive AccessMode where
  | Uninit
  | SDKActive
  | CLIActive
  | BackupActive
  | Failed
  deriving DecidableEq

/-- Result of a run of `initialize()`: whether it returned or threw, the
final mode, the adopted secrets, the backup file content afterwards, the
process environment afterwards, and whether polling was started. -/
structure InitResult (ε : Type) where
  result : Except ε Unit
  mode : AccessMode
  secrets : SecretMap
  backupFile : Option Str
  env : SecretMap
  polling : Bool

/-- `initialize()` (lines 112-148) as a function of the outcome of the
SDK tier (`initSDK` + `loadSecrets`), the outcome of the CLI tier
(`loadFromCLI`), the backup file content (`none` = absent, so `loadBackup`
throws `ENOENT`), and the initial process environment.  On SDK success the
backup is written and polling starts; on SDK failure + CLI success nothing
is written; on both failing, a present backup file is parsed; with no
backup the *original* SDK error is rethrown and `populateEnv` is never
reached. -/
def initLoader {ε : Type} (sdkRes : Except ε SecretMap)
    (cliRes : Except ε SecretMap) (backupFile : Option Str)
    (env0 : SecretMap) : InitResult ε :=
  match sdkRes with
  | Except.ok m =>
    { result := Except.ok (), mode := AccessMode.SDKActive, secrets := m,
      backupFile := saveBackupFile m backupFile,
      env := populateEnv m env0, polling := true }
  | Except.error sdkError =>
    match cliRes with
    | Except.ok m =>
      { result := Except.ok (), mode := AccessMode.CLIActive, secrets := m,
        backupFile := backupFile, env := populateEnv m env0, polling := false }
    | Except.error _ =>
      match backupFile with
      | some content =>
        let m := loadBackupParse content
        { result := Except.ok (), mode := AccessMode.BackupActive, secrets := m,
          backupFile := backupFile, env := populateEnv m env0, polling := false }
      | none =>
        { result := Except.error sdkError, mode := AccessMode.Failed,
          secrets := [], backupFile := none, env := env0, polling := false }

/-! ## Polling (`startPolling`, lines 490-518) -/

/-- State touched by one polling tick: the adopted secrets, the backup
file, and the process environment. -/
structure PollState where
  secrets : SecretMap
  backupFile : Option Str
  env : SecretMap
  deriving DecidableEq

/-- One tick of the `setInterval` callback (lines 494-517) as a function
of that tick's `loadSecrets` outcome: on success the map is replaced, the
backup rewritten and the environment re-populated; on failure the whole
body is caught (lines 513-516), everything is retained unchanged and the
tick returns normally (the function is total: no error escapes). -/
def pollTick {ε : Type} (st : PollState) (fetch : Except ε SecretMap) :
    PollState :=
  match fetch with
  | Except.error _ => st
  | Except.ok m =>
    { secrets := m, backupFile := saveBackupFile m st.backupFile,
      env := populateEnv m st.env }

/-- The polling loop over a finite trace of fetch outcomes. -/
def pollRun {ε : Type} (st : PollState) (outs : List (Except ε SecretMap)) :
    PollState :=
  outs.foldl pollTick st

/-! ## `getSecrets` (lines 520-522) with an explicit object heap -/

/-- A heap of secret-map objects; a reference is an index. -/
structure Heap where
  objs : List SecretMap
  deriving DecidableEq

/-- Allocate a new object, returning the heap and the fresh reference. -/
def Heap.alloc (h : Heap) (m : SecretMap) : Heap × Nat :=
  (⟨h.objs ++ [m]⟩, h.objs.length)

/-- Dereference (reads `[]` for a dangling reference). -/
def Heap.read (h : Heap) (r : Nat) : SecretMap :=
  (h.objs.getD r [])

/-- Mutate the object behind a reference. -/
def Heap.write (h : Heap) (r : Nat) (m : SecretMap) : Heap :=
  ⟨h.objs.set r m⟩

/-- `getSecrets()` (lines 520-522): `return { ...this.secrets }` — a fresh
shallow copy of the object behind `self` is allocated and its reference
returned. -/
def getSecrets (h : Heap) (self : Nat) : Heap × Nat :=
  Heap.alloc h (Heap.read h self)

/-! ## Environment resolution (`getInfisicalEnvironment`, lines 159-187) -/

/-- The `switch (nodeEnv)` table (lines 172-186), applied to the already
lowercased value. -/
def stageSwitch (s : Str) : Str :=
  if s = str "development" then str "development"
  else if s = str "dev" then str "development"
  else if s = str "staging" then str "staging"
  else if s = str "production" then str "production"
  else if s = str "prod" then str "production"
  else str "development"

/-- Lines 171-186: `(process.env.NODE_ENV || '').toLowerCase()` fed to the
switch.  Note the source lowercases but does not trim. -/
def envFromNode (nodeE : Option Str) : Str :=
  stageSwitch (jsToLower (nodeE.getD []))

/-- Lines 166-169: the `INFISICAL_ENVIRONMENT` override, taken when the
variable is truthy and non-blank, returned trimmed. -/
def envFromExplicit (explE nodeE : Option Str) : Str :=
  match explE with
  | some c =>
    if !c.isEmpty && !(jsTrim c).isEmpty then jsTrim c
    else envFromNode nodeE
  | none => envFromNode nodeE

/-- `getInfisicalEnvironment` (lines 159-187) as a function of the
constructor-supplied environment (`this.cliEnvironment`),
`process.env.INFISICAL_ENVIRONMENT` and `process.env.NODE_ENV`. -/
def getInfisicalEnvironment (cliE explE nodeE : Option Str) : Str :=
  match cliE with
  | some c =>
    if !c.isEmpty && !(jsTrim c).isEmpty then jsTrim c
    else envFromExplicit explE nodeE
  | none => envFromExplicit explE nodeE

/-- Reference resolver in the shape of the specification's contract
`resolve(cliFlagValue?, explicitEnvVar?, stageVar?)`: a blank-or-absent
override is skipped, a usable override is returned trimmed, otherwise the
stage table applies to the lowercased (untrimmed) stage variable. -/
def overrideVal (o : Option Str) : Option Str :=
  match o with
  | some s => if (jsTrim s).isEmpty then none else some (jsTrim s)
  | none => none

/-- Specification-shaped resolver used to state the precedence claim. -/
def resolveRef (cliE explE nodeE : Option Str) : Str :=
  match overrideVal cliE with
  | some v => v
  | none =>
    match overrideVal explE with
    | some v => v
    | none => envFromNode nodeE

/-- The stage mapping exactly as the claim words it: case-insensitive AND
trimmed.  Used only to compare the claim against the source behaviour. -/
def claimStageMapping (s : Str) : Str :=
  stageSwitch (jsToLower (jsTrim s))

/-! ## CLI front end (`cli.ts` run action, lines 18-35) -/

/-- Wiring of the `run` command action: `--env` (when truthy) is written
into `process.env.NODE_ENV`; the constructor is called as
`new SecretsLoader(process.cwd(), path)`, so the `--path` value is passed
as the constructor's `environment` parameter and the `slug` parameter is
left `undefined`.  Returns the updated environment and the two
constructor arguments after `projectRoot`. -/
def runActionWiring (envOpt pathOpt : Option Str) (env0 : SecretMap) :
    SecretMap × Option Str × Option Str :=
  let env1 :=
    match envOpt with
    | some e => if !e.isEmpty then putKV env0 (str "NODE_ENV") e else env0
    | none => env0
  (env1, pathOpt, none)

/-- The environment name the loader will resolve after the `run` action's
wiring, with a clean initial process environment. -/
def runEffectiveEnv (envOpt pathOpt : Option Str) (env0 : SecretMap) : Str :=
  let w := runActionWiring envOpt pathOpt env0
  getInfisicalEnvironment w.2.1
    (envGet w.1 (str "INFISICAL_ENVIRONMENT"))
    (envGet w.1 (str "NODE_ENV"))

/-- The secret path used by the SDK fetch is the hardcoded root path of
`listSecrets` (line 403); no constructor input reaches it. -/
def secretPathUsed : Str := str "/"

/-! ## Side conditions for the backup round-trip -/

/-- Keys for which the backup serialisation is invertible: non-empty, free
of `=` and newline, not starting with `#` (the comment marker of `load`)
and not starting with a whitespace character (the whole file content is
trimmed on `load`, which would strip a leading-whitespace first key). -/
def GoodKey (k : Str) : Prop :=
  k ≠ [] ∧ '=' ∉ k ∧ '\n' ∉ k ∧ startsHash k = false ∧
  isJsWs (k.headD ' ') = false

/-- Values for which the backup serialisation is invertible: free of
newline and not ending in a whitespace character (the whole file content
is trimmed on `load`, which would strip a trailing-whitespace last
value). -/
def GoodVal (v : Str) : Prop :=
  '\n' ∉ v ∧ isJsWs (v.getLastD '=') = false

instance (k : Str) : Decidable (GoodKey k) := by
  unfold GoodKey
  infer_instance

instance (v : Str) : Decidable (GoodVal v) := by
  unfold GoodVal
  infer_instance

end PandoraJar

namespace PandoraJar

/-! ## Environment-preservation lemmas -/

theorem envGet_setVal_ne (m : SecretMap) (k v K : Str) (h : k ≠ K) :
    envGet (setVal m k v) K = envGet m K := by
  induction m with
  | nil => rfl
  | cons p rest ih =>
    obtain ⟨k2, v2⟩ := p
    by_cases hk : k2 = k
    · subst hk
      simp only [setVal, envGet, if_pos rfl, if_neg h]
    · simp [setVal, hk, envGet, ih]

theorem envGet_append_single_ne (m : SecretMap) (k v K : Str) (h : k ≠ K) :
    envGet (m ++ [(k, v)]) K = envGet m K := by
  induction m with
  | nil => simp [envGet, h]
  | cons p rest ih => simp [envGet, ih]

theorem envGet_putKV_ne (m : SecretMap) (k v K : Str) (h : k ≠ K) :
    envGet (putKV m k v) K = envGet m K := by
  unfold putKV
  by_cases hm : hasKey m k
  · simp [hm, envGet_setVal_ne m k v K h]
  · simp [hm, envGet_append_single_ne m k v K h]

/-- A key holding a non-empty (truthy) value is never touched by
`populateEnv`. -/
theorem populate_preserve (s env : SecretMap) (K x : Str)
    (hK : envGet env K = some x) (hx : x ≠ []) :
    envGet (populateEnv s env) K = some x := by
  induction s generalizing env with
  | nil => exact hK
  | cons p rest ih =>
    have hstep :
        envGet (if truthy (envGet env p.1) then env else putKV env p.1 p.2) K
          = some x := by
      by_cases hpK : p.1 = K
      · have htr : truthy (envGet env p.1) = true := by
          rw [hpK, hK]
          cases x with
          | nil => exact absurd rfl hx
          | cons a l => rfl
        simp [htr, hK]
      · by_cases ht : truthy (envGet env p.1)
        · simp [ht, hK]
        · simp [ht, envGet_putKV_ne env p.1 p.2 K hpK, hK]
    exact ih _ hstep

/-- A key holding a non-empty value survives every polling tick. -/
theorem pollRun_env_preserve {ε : Type} (outs : List (Except ε SecretMap))
    (st : PollState) (K x : Str) (hK : envGet st.env K = some x)
    (hx : x ≠ []) :
    envGet (pollRun st outs).env K = some x := by
  induction outs generalizing st with
  | nil => exact hK
  | cons o rest ih =>
    have hrw : pollRun st (o :: rest) = pollRun (pollTick st o) rest := rfl
    rw [hrw]
    apply ih
    cases o with
    | error e => exact hK
    | ok m => exact populate_preserve m st.env K x hK hx

/-! ## Resolver lemmas -/

/-- The source guards each override with truthiness of the raw value and
of its trim; the trim condition alone is equivalent. -/
theorem override_check_eq (c : Str) :
    (!c.isEmpty && !(jsTrim c).isEmpty) = !(jsTrim c).isEmpty := by
  cases c with
  | nil => rfl
  | cons a l => rfl

theorem envFromExplicit_eq (explE nodeE : Option Str) :
    envFromExplicit explE nodeE =
      (match overrideVal explE with
       | some v => v
       | none => envFromNode nodeE) := by
  cases explE with
  | none => rfl
  | some c =>
    simp only [envFromExplicit, overrideVal, override_check_eq]
    by_cases h : (jsTrim c).isEmpty
    · simp [h]
    · simp [h]

theorem resolve_eq (cliE explE nodeE : Option Str) :
    getInfisicalEnvironment cliE explE nodeE = resolveRef cliE explE nodeE := by
  cases cliE with
  | none => exact envFromExplicit_eq explE nodeE
  | some c =>
    show (if (!c.isEmpty && !(jsTrim c).isEmpty) = true then jsTrim c
          else envFromExplicit explE nodeE) = resolveRef (some c) explE nodeE
    rw [override_check_eq]
    by_cases h : (jsTrim c).isEmpty = true
    · have hov : overrideVal (some c) = none := by
        show (if (jsTrim c).isEmpty = true then none
              else some (jsTrim c) : Option Str) = none
        rw [if_pos h]
      rw [if_neg (by rw [h]; exact Bool.false_ne_true)]
      unfold resolveRef
      rw [hov]
      exact envFromExplicit_eq explE nodeE
    · have hb : (!(jsTrim c).isEmpty) = true := by
        cases he : (jsTrim c).isEmpty
        · rfl
        · exact absurd he h
      have hov : overrideVal (some c) = some (jsTrim c) := by
        show (if (jsTrim c).isEmpty = true then none
              else some (jsTrim c) : Option Str) = some (jsTrim c)
        rw [if_neg h]
      rw [if_pos hb]
      unfold resolveRef
      rw [hov]

/-! ## Backup round-trip lemmas -/

theorem dropWhile_eq_self_of_head (l : Str)
    (h : ∀ a, l.head? = some a → isJsWs a = false) :
    l.dropWhile isJsWs = l := by
  cases l with
  | nil => rfl
  | cons a t =>
    rw [List.dropWhile_cons, h a rfl]
    simp

theorem trim_eq_self (s : Str)
    (h1 : ∀ a, s.head? = some a → isJsWs a = false)
    (h2 : ∀ a, s.getLast? = some a → isJsWs a = false) :
    jsTrim s = s := by
  unfold jsTrim trimLeftWs trimRightWs
  rw [dropWhile_eq_self_of_head s h1]
  rw [dropWhile_eq_self_of_head s.reverse (by
    intro a ha
    rw [List.head?_reverse] at ha
    exact h2 a ha)]
  exact List.reverse_reverse s

theorem mem_dropWhile_of_mem (l : Str) (c : Char) (hc : c ∈ l)
    (hw : isJsWs c = false) : c ∈ l.dropWhile isJsWs := by
  induction l with
  | nil => cases hc
  | cons a t ih =>
    rw [List.dropWhile_cons]
    by_cases ha : isJsWs a = true
    · rw [if_pos ha]
      rcases List.mem_cons.mp hc with h | h
      · subst h
        rw [hw] at ha
        exact absurd ha (by simp)
      · exact ih h
    · rw [if_neg ha]
      exact hc

theorem isEmpty_false_of_mem (l : Str) (c : Char) (h : c ∈ l) :
    l.isEmpty = false := by
  cases l with
  | nil => cases h
  | cons a t => rfl

/-- A string containing any non-whitespace character has a non-empty
trim. -/
theorem jsTrim_isEmpty_false (s : Str) (c : Char) (hc : c ∈ s)
    (hw : isJsWs c = false) : (jsTrim s).isEmpty = false := by
  apply isEmpty_false_of_mem _ c
  unfold jsTrim trimLeftWs trimRightWs
  rw [List.mem_reverse]
  apply mem_dropWhile_of_mem _ c _ hw
  rw [List.mem_reverse]
  exact mem_dropWhile_of_mem s c hc hw

theorem splitNL_no_nl (l : Str) (h : '\n' ∉ l) : splitNL l = [l] := by
  induction l with
  | nil => rfl
  | cons c cs ih =>
    have hc : ¬(c = '\n') := fun he => h (by rw [← he]; exact List.mem_cons_self c cs)
    have hcs : '\n' ∉ cs := fun hm => h (List.mem_cons_of_mem c hm)
    unfold splitNL
    rw [if_neg hc, ih hcs]

theorem splitNL_append_nl (l r : Str) (h : '\n' ∉ l) :
    splitNL (l ++ '\n' :: r) = l :: splitNL r := by
  induction l with
  | nil =>
    show splitNL ('\n' :: r) = [] :: splitNL r
    simp only [splitNL, if_pos]
  | cons c cs ih =>
    have hc : ¬(c = '\n') := fun he => h (by rw [← he]; exact List.mem_cons_self c cs)
    have hcs : '\n' ∉ cs := fun hm => h (List.mem_cons_of_mem c hm)
    show splitNL (c :: (cs ++ '\n' :: r)) = (c :: cs) :: splitNL r
    simp only [splitNL, hc, ih hcs, if_false, if_neg]

theorem joinNL_cons_cons (l l2 : Str) (ls : List Str) :
    joinNL (l :: l2 :: ls) = l ++ '\n' :: joinNL (l2 :: ls) := rfl

theorem splitNL_joinNL (ls : List Str) (hne : ls ≠ [])
    (h : ∀ l ∈ ls, '\n' ∉ l) : splitNL (joinNL ls) = ls := by
  induction ls with
  | nil => exact absurd rfl hne
  | cons l rest ih =>
    cases rest with
    | nil => exact splitNL_no_nl l (h l (List.mem_cons_self l []))
    | cons l2 rest2 =>
      rw [joinNL_cons_cons,
        splitNL_append_nl l _ (h l (List.mem_cons_self l (l2 :: rest2))),
        ih (by simp) (fun x hx => h x (List.mem_cons_of_mem l hx))]

theorem joinNL_eq_append (a : Str) (rest : List Str) (hne : rest ≠ []) :
    joinNL (a :: rest) = a ++ '\n' :: joinNL rest := by
  cases rest with
  | nil => exact absurd rfl hne
  | cons b r2 => rfl

theorem head?_joinNL (l : Str) (ls : List Str) (hl : l ≠ []) :
    (joinNL (l :: ls)).head? = l.head? := by
  cases ls with
  | nil => rfl
  | cons l2 rest =>
    rw [joinNL_cons_cons]
    cases l with
    | nil => exact absurd rfl hl
    | cons c cs => rfl

theorem joinNL_concat_ne_nil (ls : List Str) (l : Str) (hl : l ≠ []) :
    joinNL (ls ++ [l]) ≠ [] := by
  cases ls with
  | nil => exact hl
  | cons a rest =>
    rw [List.cons_append, joinNL_eq_append a (rest ++ [l]) (by simp)]
    simp

theorem getLast?_cons_of_ne_nil (c : Char) (xs : Str) (h : xs ≠ []) :
    (c :: xs).getLast? = xs.getLast? := by
  have hcx : c :: xs = [c] ++ xs := rfl
  rw [hcx, List.getLast?_append_of_ne_nil [c] h]

theorem getLast?_joinNL (ls : List Str) (l : Str) (hl : l ≠ []) :
    (joinNL (ls ++ [l])).getLast? = l.getLast? := by
  induction ls with
  | nil => rfl
  | cons a rest ih =>
    rw [List.cons_append, joinNL_eq_append a (rest ++ [l]) (by simp),
      List.getLast?_append_of_ne_nil a (by simp),
      getLast?_cons_of_ne_nil _ _ (joinNL_concat_ne_nil rest l hl)]
    exact ih

theorem idxOf_line (k v : Str) (hk : '=' ∉ k) :
    idxOf '=' (k ++ '=' :: v) = k.length := by
  induction k with
  | nil =>
    show idxOf '=' ('=' :: v) = 0
    simp only [idxOf, if_pos]
  | cons a t ih =>
    have ha : ¬(a = '=') := fun he => hk (by rw [← he]; exact List.mem_cons_self a t)
    have ht : '=' ∉ t := fun hm => hk (List.mem_cons_of_mem a hm)
    show idxOf '=' (a :: (t ++ '=' :: v)) = t.length + 1
    simp only [idxOf, ha, ih ht, if_false, if_neg, List.length_cons]

theorem parseLineInto_line (acc : SecretMap) (k v : Str) (hk0 : k ≠ [])
    (hkeq : '=' ∉ k) : parseLineInto acc (k ++ '=' :: v) = putKV acc k v := by
  simp only [parseLineInto]
  rw [idxOf_line k v hkeq]
  rw [if_pos ⟨List.length_pos.mpr hk0, by simp [List.length_append]⟩]
  have htake : (k ++ '=' :: v).take k.length = k := List.take_left k ('=' :: v)
  have hdrop : (k ++ '=' :: v).drop (k.length + 1) = v := by
    rw [List.append_cons]
    have hlen : (k ++ ['=']).length = k.length + 1 := by simp
    rw [← hlen, List.drop_left]
  rw [htake, hdrop]

theorem hasKey_append (m1 m2 : SecretMap) (k : Str) :
    hasKey (m1 ++ m2) k = (hasKey m1 k || hasKey m2 k) := by
  induction m1 with
  | nil => rfl
  | cons p rest ih =>
    obtain ⟨k2, v2⟩ := p
    simp only [List.cons_append, hasKey, List.append_eq, ih, Bool.or_assoc]

theorem foldl_parse_good (m : SecretMap) : ∀ acc : SecretMap,
    (∀ p ∈ m, p.1 ≠ [] ∧ '=' ∉ p.1) →
    (m.map Prod.fst).Nodup →
    (∀ p ∈ m, hasKey acc p.1 = false) →
    List.foldl parseLineInto acc (m.map (fun p => p.1 ++ '=' :: p.2))
      = acc ++ m := by
  induction m with
  | nil =>
    intro acc _ _ _
    simp
  | cons p rest ih =>
    intro acc hgood hnd hfresh
    obtain ⟨k, v⟩ := p
    have hkgood := hgood (k, v) (List.mem_cons_self _ _)
    rw [List.map_cons, List.foldl_cons,
      parseLineInto_line acc k v hkgood.1 hkgood.2]
    have hfk : hasKey acc k = false := hfresh (k, v) (List.mem_cons_self _ _)
    have hput : putKV acc k v = acc ++ [(k, v)] := by
      unfold putKV
      rw [hfk]
      simp
    rw [hput]
    have hnd2 : k ∉ rest.map Prod.fst ∧ (rest.map Prod.fst).Nodup :=
      List.nodup_cons.mp (by simpa using hnd)
    have hfresh2 : ∀ q ∈ rest, hasKey (acc ++ [(k, v)]) q.1 = false := by
      intro q hq
      rw [hasKey_append, hfresh q (List.mem_cons_of_mem _ hq)]
      have hne : ¬(k = q.1) := fun he =>
        hnd2.1 (by rw [he]; exact List.mem_map_of_mem Prod.fst hq)
      simp [hasKey, hne]
    rw [ih (acc ++ [(k, v)]) (fun q hq => hgood q (List.mem_cons_of_mem _ hq))
      hnd2.2 hfresh2]
    rw [List.append_assoc]
    rfl

theorem keepLineBackup_line (k v : Str) (hgk : GoodKey k) :
    keepLineBackup (k ++ '=' :: v) = true := by
  obtain ⟨hk0, hkeq, hknl, hkh, hkws⟩ := hgk
  unfold keepLineBackup
  have h1 : (jsTrim (k ++ '=' :: v)).isEmpty = false :=
    jsTrim_isEmpty_false _ '=' (by simp) (by decide)
  have h2 : startsHash (k ++ '=' :: v) = false := by
    cases k with
    | nil => exact absurd rfl hk0
    | cons a t => exact hkh
  rw [h1, h2]
  rfl

theorem lines_no_nl (m : SecretMap) (hk : ∀ p ∈ m, GoodKey p.1)
    (hv : ∀ p ∈ m, GoodVal p.2) :
    ∀ l ∈ m.map (fun p => p.1 ++ '=' :: p.2), '\n' ∉ l := by
  intro l hl
  rcases List.mem_map.mp hl with ⟨p, hp, rfl⟩
  intro hmem
  rcases List.mem_append.mp hmem with h | h
  · exact (hk p hp).2.2.1 h
  · rcases List.mem_cons.mp h with h | h
    · exact absurd h (by decide)
    · exact (hv p hp).1 h

theorem renderEnv_head_ws (m : SecretMap) (hk : ∀ p ∈ m, GoodKey p.1) :
    ∀ a, (renderEnv m).head? = some a → isJsWs a = false := by
  intro a ha
  cases m with
  | nil => cases ha
  | cons p rest =>
    have hgk := hk p (List.mem_cons_self _ _)
    obtain ⟨k, v⟩ := p
    rw [show renderEnv ((k, v) :: rest)
        = joinNL ((k ++ '=' :: v) :: rest.map (fun p => p.1 ++ '=' :: p.2))
        from rfl] at ha
    rw [head?_joinNL _ _ (by simp)] at ha
    obtain ⟨hk0, _, _, _, hkws⟩ := hgk
    cases k with
    | nil => exact absurd rfl hk0
    | cons c t =>
      rw [show ((c :: t) ++ '=' :: v).head? = some c from rfl] at ha
      cases ha
      exact hkws

theorem renderEnv_last_ws (m : SecretMap) (hk : ∀ p ∈ m, GoodKey p.1)
    (hv : ∀ p ∈ m, GoodVal p.2) :
    ∀ a, (renderEnv m).getLast? = some a → isJsWs a = false := by
  intro a ha
  rcases List.eq_nil_or_concat m with hm | ⟨m2, q, hm⟩
  · subst hm
    cases ha
  · subst hm
    have hline : renderEnv (m2.concat q)
        = joinNL ((m2.map (fun p => p.1 ++ '=' :: p.2)) ++ [q.1 ++ '=' :: q.2]) := by
      unfold renderEnv
      rw [List.concat_eq_append, List.map_append]
      rfl
    rw [hline, getLast?_joinNL _ _ (by simp),
      List.getLast?_append_of_ne_nil q.1 (by simp)] at ha
    have hq := hv q (by
      rw [List.concat_eq_append]
      exact List.mem_append_right _ (List.mem_cons_self _ _))
    cases hq2 : q.2 with
    | nil =>
      rw [hq2] at ha
      cases ha
      decide
    | cons c t =>
      rw [hq2, getLast?_cons_of_ne_nil '=' (c :: t) (by simp)] at ha
      have hlast := hq.2
      rw [hq2, List.getLastD_eq_getLast?, ha] at hlast
      exact hlast

theorem getD_append_lt (l1 l2 : List SecretMap) (n : Nat) (d : SecretMap)
    (h : n < l1.length) : (l1 ++ l2).getD n d = l1.getD n d := by
  induction l1 generalizing n with
  | nil => cases h
  | cons a t ih =>
    cases n with
    | zero => rfl
    | succ n2 => exact ih n2 (Nat.lt_of_succ_lt_succ h)

theorem getD_append_len (l : List SecretMap) (a d : SecretMap) :
    (l ++ [a]).getD l.length d = a := by
  induction l with
  | nil => rfl
  | cons b t ih => exact ih

theorem set_append_len (l1 l2 : List SecretMap) (x : SecretMap) :
    (l1 ++ l2).set l1.length x = l1 ++ l2.set 0 x := by
  induction l1 with
  | nil => rfl
  | cons a t ih =>
    show a :: (t ++ l2).set t.length x = a :: (t ++ l2.set 0 x)
    exact congrArg (List.cons a) ih

/-! ## Claim theorems -/

/-- C1: fallback ordering of `initialize()`.  With the SDK tier failing
and the CLI tier succeeding, the final mode is `CLIActive` and the backup
file is untouched; with SDK and CLI both failing and a backup file
present, the final mode is `BackupActive`; with all three tiers failing,
`initialize()` throws, the surfaced error is the original SDK-tier error
`e` (not the CLI error `eCli`), and the mode is `Failed`. -/
theorem claim1_fallback_order (ε : Type) (e eCli : ε) (m : SecretMap)
    (content : Str) (file : Option Str) (env : SecretMap) :
    (initLoader (Except.error e) (Except.ok m) file env).mode = AccessMode.CLIActive
    ∧ (initLoader (Except.error e) (Except.ok m) file env).backupFile = file
    ∧ (initLoader (Except.error e) (Except.error eCli) (some content) env).mode
      = AccessMode.BackupActive
    ∧ (initLoader (Except.error e) (Except.error eCli) none env).result
      = Except.error e
    ∧ (initLoader (Except.error e) (Except.error eCli) none env).mode
      = AccessMode.Failed :=
  ⟨rfl, rfl, rfl, rfl, rfl⟩

/-- C5: evaluation of the code at the failing input.  A subprocess that
emits the well-formed line `FOO=bar` and then exits with code 1 settles
as a rejection carrying only the exit-code error, so `loadFromCLI` (with
no secrets held beforehand) fails outright even though its parser would
have recovered `{FOO: bar}` from the streamed output — the streamed
partial output is discarded by the rejection and never reaches the
parser. -/
theorem claim5_partial_output_lost :
    execRun [StreamEvent.out (str "FOO=bar\n"), StreamEvent.close (some 1)]
      = some (Except.error (ExecErr.exitCode 1))
    ∧ loadFromCLI (Except.error (ExecErr.exitCode 1))
        (Except.error (ExecErr.exitCode 1)) (Except.error (ExecErr.exitCode 1)) []
      = Except.error (ExecErr.exitCode 1)
    ∧ parseCLIOut (str "FOO=bar\n") = [(str "FOO", str "bar")] :=
  ⟨rfl, rfl, rfl⟩

/-- C6 counterexample: the interactive-login failure is *not*
non-retryable.  When the first invocation settles with
`interactiveLogin` and the retry-without-projectId invocation succeeds,
`loadFromCLI` adopts the retry's secrets — the retry was triggered and
the call does not surface the fatal error, contradicting the claim. -/
theorem claim6_counterexample :
    execRun [StreamEvent.out loginPhrase]
      = some (Except.error ExecErr.interactiveLogin)
    ∧ loadFromCLI (Except.error ExecErr.interactiveLogin)
        (Except.ok ⟨str "A=b", []⟩) (Except.ok ⟨[], []⟩) []
      = Except.ok [(str "A", str "b")]
    ∧ (Except.ok [(str "A", str "b")] : Except ExecErr SecretMap)
      ≠ Except.error ExecErr.interactiveLogin :=
  ⟨rfl, rfl, by simp⟩

/-- C6 amended: a chunk containing the interactive-login phrase on either
stream settles the invocation immediately (all later events ignored, the
child killed at settlement) with an error distinct from any non-zero-exit
error; but at the loader level this failure is handled like any other
attempt failure — `loadFromCLI` behaves exactly as it does after a plain
non-zero exit, i.e. it does trigger the retry-without-projectId and
diagnostic invocations. -/
theorem claim6_amended (d : Str) (rest : List StreamEvent)
    (a2 a3 : Except ExecErr ExecResult) (prior : SecretMap)
    (hd : containsB d loginPhrase = true) :
    execRun (StreamEvent.out d :: rest)
      = some (Except.error ExecErr.interactiveLogin)
    ∧ execRun (StreamEvent.errOut d :: rest)
      = some (Except.error ExecErr.interactiveLogin)
    ∧ (∀ c : Int, ExecErr.interactiveLogin ≠ ExecErr.exitCode c)
    ∧ loadFromCLI (Except.error ExecErr.interactiveLogin) a2 a3 prior
      = loadFromCLI (Except.error (ExecErr.exitCode 1)) a2 a3 prior := by
  refine ⟨?_, ?_, ?_, rfl⟩
  · simp [execRun, execRunAux, hd]
  · simp [execRun, execRunAux, hd]
  · intro c h
    exact ExecErr.noConfusion h

/-- Closed witness for `claim6_amended` at the phrase itself. -/
theorem claim6_amended_witness :
    containsB loginPhrase loginPhrase = true
    ∧ execRun [StreamEvent.out loginPhrase]
      = some (Except.error ExecErr.interactiveLogin) :=
  ⟨by decide,
   (claim6_amended loginPhrase [] (Except.ok ⟨[], []⟩) (Except.ok ⟨[], []⟩) []
      (by decide)).1⟩

/-- C7: a failing polling tick is absorbed.  `pollTick` is a total
function (no error escapes the tick), a failing fetch leaves the secrets,
backup file and environment completely unchanged, and the loop simply
continues with the remaining ticks. -/
theorem claim7_poll_failure_retains (ε : Type) (st : PollState) (e : ε)
    (rest : List (Except ε SecretMap)) :
    pollTick st (Except.error e) = st
    ∧ pollRun st (Except.error e :: rest) = pollRun st rest :=
  ⟨rfl, rfl⟩

/-- C8: `saveBackup` on an empty map is a no-op that succeeds.  For any
existing backup file content and regardless of whether a write would
succeed, the call returns normally (a warning, not an error) and the file
content is unchanged — no write occurs. -/
theorem claim8_empty_save_noop (file : Option Str) (writeOk : Bool) :
    saveBackup [] file writeOk = Except.ok file :=
  rfl

/-- C9: evaluation of the `run` action wiring at the failing input
`--env staging --path /api`.  The `--path` value is passed as the
constructor's `environment` parameter, so the resolved environment is
`/api` (not `staging`); the `--env` value only reaches `NODE_ENV`; the
constructor's remaining parameter (`slug`) stays undefined, and the SDK
fetch path is the hardcoded root — no secret-path override exists. -/
theorem claim9_cli_wiring :
    runEffectiveEnv (some (str "staging")) (some (str "/api")) [] = str "/api"
    ∧ str "/api" ≠ str "staging"
    ∧ (runActionWiring (some (str "staging")) (some (str "/api")) []).2.1
      = some (str "/api")
    ∧ (runActionWiring (some (str "staging")) (some (str "/api")) []).2.2 = none
    ∧ envGet (runActionWiring (some (str "staging")) (some (str "/api")) []).1
        (str "NODE_ENV") = some (str "staging")
    ∧ secretPathUsed = str "/" :=
  ⟨rfl, by decide, rfl, rfl, rfl, rfl⟩

/-- C2 counterexample: a key pre-set to the *empty* string is already
present in the environment, yet `populateEnv` overwrites it (JavaScript
truthiness: `!process.env[key]` is true for the empty string), so the
pre-set value is not retained. -/
theorem claim2_counterexample :
    envGet [(str "K", str "")] (str "K") = some (str "")
    ∧ envGet (populateEnv [(str "K", str "v")] [(str "K", str "")]) (str "K")
      = some (str "v")
    ∧ (some (str "v") : Option Str) ≠ some (str "") :=
  ⟨rfl, rfl, by decide⟩

/-- C2 amended: a key pre-set to a *non-empty* value is retained.  For
every environment variable `K` pre-set to a non-empty value `x`, the
environment still maps `K` to `x` after `populateEnv` publishes any
resolved SecretMap (even one redefining `K`) and after every subsequent
polling cycle; only keys that are absent or pre-set to the empty string
receive loaded secrets. -/
theorem claim2_amended {ε : Type} (env s0 : SecretMap) (K x : Str)
    (b0 : Option Str) (outs : List (Except ε SecretMap))
    (hK : envGet env K = some x) (hx : x ≠ []) :
    envGet (populateEnv s0 env) K = some x
    ∧ envGet (pollRun ⟨s0, b0, populateEnv s0 env⟩ outs).env K = some x := by
  refine ⟨populate_preserve s0 env K x hK hx, ?_⟩
  exact pollRun_env_preserve outs ⟨s0, b0, populateEnv s0 env⟩ K x
    (populate_preserve s0 env K x hK hx) hx

/-- Closed witness for `claim2_amended`: `K` pre-set to `X`, the secrets
redefine `K`, and one successful poll redefines it again; `X` survives. -/
theorem claim2_amended_witness :
    envGet [(str "K", str "X")] (str "K") = some (str "X")
    ∧ str "X" ≠ []
    ∧ envGet (populateEnv [(str "K", str "v")] [(str "K", str "X")]) (str "K")
      = some (str "X")
    ∧ envGet (pollRun
        ⟨[(str "K", str "v")], none,
         populateEnv [(str "K", str "v")] [(str "K", str "X")]⟩
        ([Except.ok [(str "K", str "w")]] : List (Except Unit SecretMap))).env
        (str "K") = some (str "X") := by
  have h := claim2_amended [(str "K", str "X")] [(str "K", str "v")]
    (str "K") (str "X") none
    ([Except.ok [(str "K", str "w")]] : List (Except Unit SecretMap))
    rfl (by decide)
  exact ⟨rfl, by decide, h.1, h.2⟩

/-- C3 counterexample: the stage mapping is *not* trimmed.  With the
stage variable set to a padded spelling of production, the source resolves
to the default `development`, while the claim's case-insensitive-and-
trimmed table maps it to `production`. -/
theorem claim3_counterexample :
    getInfisicalEnvironment none none (some (str " production"))
      = str "development"
    ∧ claimStageMapping (str " production") = str "production"
    ∧ str "development" ≠ str "production" :=
  ⟨rfl, rfl, by decide⟩

/-- C3 amended: the resolver is total (a plain function), obeys the
precedence per-invocation override > explicit environment-variable
override > stage mapping > default, skipping blank-after-trim overrides
and returning the winning override trimmed; the stage mapping is
case-insensitive (it sees only the lowercased stage value) but *not*
trimmed, maps development/dev to development, staging to staging,
production/prod to production, and anything else or absent to the default
development. -/
theorem claim3_amended :
    (∀ cliE explE nodeE, getInfisicalEnvironment cliE explE nodeE
      = resolveRef cliE explE nodeE)
    ∧ (∀ s, jsToLower s = str "development" ∨ jsToLower s = str "dev" →
        envFromNode (some s) = str "development")
    ∧ (∀ s, jsToLower s = str "staging" → envFromNode (some s) = str "staging")
    ∧ (∀ s, jsToLower s = str "production" ∨ jsToLower s = str "prod" →
        envFromNode (some s) = str "production")
    ∧ (∀ s, jsToLower s ≠ str "development" → jsToLower s ≠ str "dev" →
        jsToLower s ≠ str "staging" → jsToLower s ≠ str "production" →
        jsToLower s ≠ str "prod" → envFromNode (some s) = str "development")
    ∧ envFromNode none = str "development" := by
  refine ⟨resolve_eq, ?_, ?_, ?_, ?_, rfl⟩
  · intro s h
    rcases h with h | h <;>
      · show stageSwitch (jsToLower s) = str "development"
        rw [h]
        decide
  · intro s h
    show stageSwitch (jsToLower s) = str "staging"
    rw [h]
    decide
  · intro s h
    rcases h with h | h <;>
      · show stageSwitch (jsToLower s) = str "production"
        rw [h]
        decide
  · intro s h1 h2 h3 h4 h5
    show stageSwitch (jsToLower s) = str "development"
    unfold stageSwitch
    rw [if_neg h1, if_neg h2, if_neg h3, if_neg h4, if_neg h5]

/-- Closed witness for `claim3_amended`: an out-of-table per-invocation
override wins and comes back trimmed, and the stage mapping is
case-insensitive on a concrete uppercase spelling. -/
theorem claim3_amended_witness :
    getInfisicalEnvironment (some (str " qa ")) (some (str "staging"))
      (some (str "prod")) = str "qa"
    ∧ jsToLower (str "PROD") = str "prod"
    ∧ envFromNode (some (str "PROD")) = str "production" := by
  have h := claim3_amended
  refine ⟨?_, by decide, ?_⟩
  · rw [h.1]
    decide
  · exact h.2.2.2.1 (str "PROD") (Or.inr (by decide))

/-- C4 counterexample: a value containing a newline breaks the
round-trip.  Saving `{K: a\nb}` writes two physical lines; loading parses
the first into `{K: a}` and skips the second (no `=`), so the loaded map
differs from the saved one. -/
theorem claim4_counterexample :
    loadBackupParse (renderEnv [(str "K", str "a\nb")]) = [(str "K", str "a")]
    ∧ [(str "K", str "a")] ≠ [(str "K", str "a\nb")] :=
  ⟨rfl, by decide⟩

/-- C4 amended: the backup round-trip `load(save(M))` reproduces `M`
exactly for every non-empty SecretMap `M` with pairwise-distinct keys,
provided additionally that keys and values contain no newline, keys do
not start with `#` or a whitespace character, and values do not end in a
whitespace character (newlines in either break line structure; a leading
`#` key is dropped as a comment; the edge whitespace falls to the
whole-file trim of `load`).  Moreover `save` never emits blank or comment
lines (every written line passes the `load` filter), and `load` ignores
any blank or comment line inserted anywhere between the stored lines. -/
theorem claim4_amended (m : SecretMap) (hne : m ≠ [])
    (hnd : (m.map Prod.fst).Nodup)
    (hk : ∀ p ∈ m, GoodKey p.1) (hv : ∀ p ∈ m, GoodVal p.2) :
    loadBackupParse (renderEnv m) = m
    ∧ (∀ l ∈ splitNL (renderEnv m), keepLineBackup l = true)
    ∧ (∀ pre post c, keepLineBackup c = false →
        parsePairs ((pre ++ c :: post).filter keepLineBackup)
          = parsePairs ((pre ++ post).filter keepLineBackup)) := by
  have hlines : ∀ l ∈ m.map (fun p => p.1 ++ '=' :: p.2), '\n' ∉ l :=
    lines_no_nl m hk hv
  have hmapne : m.map (fun p => p.1 ++ '=' :: p.2) ≠ [] := by
    cases m with
    | nil => exact absurd rfl hne
    | cons p rest => simp
  have hsplit : splitNL (renderEnv m) = m.map (fun p => p.1 ++ '=' :: p.2) :=
    splitNL_joinNL _ hmapne hlines
  have hkeep : ∀ l ∈ splitNL (renderEnv m), keepLineBackup l = true := by
    rw [hsplit]
    intro l hl
    rcases List.mem_map.mp hl with ⟨p, hp, rfl⟩
    exact keepLineBackup_line p.1 p.2 (hk p hp)
  refine ⟨?_, hkeep, ?_⟩
  · unfold loadBackupParse
    rw [trim_eq_self _ (renderEnv_head_ws m hk) (renderEnv_last_ws m hk hv)]
    rw [hsplit, List.filter_eq_self.mpr (by rw [← hsplit]; exact hkeep)]
    unfold parsePairs
    rw [foldl_parse_good m []
      (fun p hp => ⟨(hk p hp).1, (hk p hp).2.1⟩) hnd (fun p hp => rfl)]
    rfl
  · intro pre post c hc
    rw [List.filter_append, List.filter_cons, hc, List.filter_append]
    simp

/-- Closed witness for `claim4_amended` on a concrete two-entry map whose
second value itself contains `=`. -/
theorem claim4_amended_witness :
    loadBackupParse (renderEnv [(str "A", str "1"), (str "B", str "x=y")])
      = [(str "A", str "1"), (str "B", str "x=y")] :=
  (claim4_amended [(str "A", str "1"), (str "B", str "x=y")]
    (by decide) (by decide) (by decide) (by decide)).1

/-- C10: `getSecrets()` returns a fresh shallow copy.  The returned
reference is distinct from the loader's own; writing any map through the
returned reference leaves the loader's internal secrets unchanged, leaves
the environment `populateEnv` would publish unchanged, and a later
`getSecrets()` still reads the original internal map. -/
theorem claim10_getSecrets_copy (h : Heap) (self : Nat) (m2 : SecretMap)
    (hlt : self < h.objs.length) :
    (getSecrets h self).2 ≠ self
    ∧ Heap.read (Heap.write (getSecrets h self).1 (getSecrets h self).2 m2) self
      = Heap.read h self
    ∧ Heap.read
        (getSecrets (Heap.write (getSecrets h self).1 (getSecrets h self).2 m2)
          self).1
        (getSecrets (Heap.write (getSecrets h self).1 (getSecrets h self).2 m2)
          self).2
      = Heap.read h self
    ∧ (∀ env, populateEnv
        (Heap.read (Heap.write (getSecrets h self).1 (getSecrets h self).2 m2)
          self) env
      = populateEnv (Heap.read h self) env) := by
  have h2objs :
      (Heap.write (getSecrets h self).1 (getSecrets h self).2 m2).objs
        = h.objs ++ [m2] := by
    show (h.objs ++ [Heap.read h self]).set h.objs.length m2 = h.objs ++ [m2]
    rw [set_append_len]
    rfl
  have hread2 :
      Heap.read (Heap.write (getSecrets h self).1 (getSecrets h self).2 m2) self
        = Heap.read h self := by
    show (Heap.write (getSecrets h self).1 (getSecrets h self).2 m2).objs.getD
        self [] = h.objs.getD self []
    rw [h2objs]
    exact getD_append_lt h.objs [m2] self [] hlt
  refine ⟨Nat.ne_of_gt hlt, hread2, ?_, fun env => by rw [hread2]⟩
  show ((Heap.write (getSecrets h self).1 (getSecrets h self).2 m2).objs
      ++ [Heap.read (Heap.write (getSecrets h self).1 (getSecrets h self).2 m2)
            self]).getD
      (Heap.write (getSecrets h self).1 (getSecrets h self).2 m2).objs.length []
    = Heap.read h self
  rw [hread2, getD_append_len]

/-- Closed witness for `claim10_getSecrets_copy` on a one-object heap. -/
theorem claim10_getSecrets_copy_witness :
    ((0 : Nat) < (Heap.mk [[(str "A", str "1")]]).objs.length)
    ∧ (getSecrets (Heap.mk [[(str "A", str "1")]]) 0).2 ≠ 0
    ∧ Heap.read
        (Heap.write (getSecrets (Heap.mk [[(str "A", str "1")]]) 0).1
          (getSecrets (Heap.mk [[(str "A", str "1")]]) 0).2 [])
        0 = Heap.read (Heap.mk [[(str "A", str "1")]]) 0 := by
  have h := claim10_getSecrets_copy (Heap.mk [[(str "A", str "1")]]) 0 []
    (by decide)
  exact ⟨by decide, h.1, h.2.1⟩

end PandoraJar
